import Mathlib

/-
Verification of the file-availability / alignment core of Gilly_Utilities
(`gilly_utilities/system.py`): `file_checker`, `file_checker2`,
`File_Aligner_NoSize`, `File_Aligner`.

Embedding notes.
* Timestamps are an arbitrary type `α` with decidable equality, matching the
  code's use of numpy object arrays of datetimes compared only by `==`.
* File paths are byte strings, modelled as `List Char` (one `Char` per byte).
* The filesystem is a parameter `fs : Path → Option Nat`: `some s` when
  `os.stat(p).st_size` returns `s`, `none` when `os.stat` raises `OSError`.
* A Python function that may raise returns `Option`: `none` is an uncaught
  exception (an `OSError` from `os.stat`, or a numpy `IndexError` from
  applying a boolean mask of the wrong length).
* numpy operations are modelled element-wise:
  `dates == t` / `np.sum(dates == t)` as `countMatches`;
  `files[dates == t]` as `maskSelect` (raising when the mask length differs
  from the array length);  `np.in1d(date_range, dates)` as membership;
  assignment into a `dtype='S256'` array as truncation to 256 bytes (`s256`).
-/

namespace GillyUtilities

/-- File paths as byte strings, one `Char` per byte. -/
abbrev Path := List Char

/-- A value held in a numpy `dtype=object` array slot: either a Python int
(the `0` that `np.zeros` fills in, or the literal `2` the aligner writes) or
a timestamp object. -/
inductive PyObj (α : Type) where
  | int : Int → PyObj α
  | date : α → PyObj α
deriving DecidableEq

/-- `np.sum(dates == t)`: the number of catalog dates equal to `t`. -/
def countMatches {α : Type} [DecidableEq α] (dates : List α) (t : α) : Nat :=
  (dates.filter (fun d => decide (d = t))).length

/-- The files at positions whose date equals `t`, assuming the two parallel
arrays line up (the payload of `files[dates == t]`). -/
def matchedFiles {α : Type} [DecidableEq α] (dates : List α) (files : List Path)
    (t : α) : List Path :=
  ((dates.zip files).filter (fun p => decide (p.1 = t))).map Prod.snd

/-- `files[dates == t]`: numpy boolean-mask selection.  Raises `IndexError`
(`none`) when the mask length (`dates.length`) differs from `files.length`. -/
def maskSelect {α : Type} [DecidableEq α] (dates : List α) (files : List Path)
    (t : α) : Option (List Path) :=
  if dates.length = files.length then some (matchedFiles dates files t) else none

/-- `files[dates == t][0]`: the first selected file; `none` on either the
mask-length `IndexError` or the `[0]` `IndexError` on an empty selection. -/
def matchFirst {α : Type} [DecidableEq α] (dates : List α) (files : List Path)
    (t : α) : Option Path :=
  (maskSelect dates files t).bind List.head?

/-- Sequencing of a Python loop that may raise: `none` as soon as any element
raises, otherwise the list of all results. -/
def optMap {β γ : Type} (f : β → Option γ) : List β → Option (List γ)
  | [] => some []
  | b :: l =>
    match f b, optMap f l with
    | some c, some cs => some (c :: cs)
    | _, _ => none

/-- One iteration of `file_checker`'s loop body for requested timestamp `t`:
exactly one catalog match → stat the matched file (propagating `OSError`) and
compare its size with the threshold; otherwise append `no_file`. -/
def checkOne {α : Type} [DecidableEq α] (fs : Path → Option Nat) (dates : List α)
    (files : List Path) (file_size_min : Nat) (yes_file no_file corrupt_file : Int)
    (t : α) : Option Int :=
  if countMatches dates t = 1 then
    match matchFirst dates files t with
    | none => none
    | some f =>
      match fs f with
      | none => none
      | some s => some (if file_size_min < s then yes_file else corrupt_file)
  else some no_file

/-- `file_checker` (system.py lines 366–415).  With `files = none` it takes
the fast path: a zero array with `1` written wherever the requested date is
found among the catalog dates.  With files supplied it loops over
`date_range` running `checkOne`. -/
def file_checker {α : Type} [DecidableEq α] (fs : Path → Option Nat)
    (dates date_range : List α) (files : Option (List Path))
    (file_size_min : Nat) (yes_file no_file corrupt_file : Int) :
    Option (List Int) :=
  match files with
  | none => some (date_range.map (fun t => if t ∈ dates then (1 : Int) else 0))
  | some fl =>
    optMap (checkOne fs dates fl file_size_min yes_file no_file corrupt_file)
      date_range

/-- `dates[mask_filesize]` in `file_checker2`: the catalog dates whose file's
size (0 when `os.stat` raised) is at most the threshold. -/
def undersizedDates {α : Type} [DecidableEq α] (fs : Path → Option Nat)
    (dates : List α) (files : List Path) (file_size_min : Nat) : List α :=
  ((dates.zip (files.map (fun f => (fs f).getD 0))).filter
      (fun p => decide (p.2 ≤ file_size_min))).map Prod.fst

/-- `file_checker2` (system.py lines 417–476).  Starts from a zero array,
writes `yes_file` wherever the requested date occurs among the catalog dates,
then (files supplied) overwrites with `corrupt_file` wherever the requested
date occurs among the undersized catalog dates.  Stat errors are caught and
mapped to size 0.  `dates[mask_filesize]` raises `IndexError` (`none`) when
`files` and `dates` have different lengths. -/
def file_checker2 {α : Type} [DecidableEq α] (fs : Path → Option Nat)
    (dates date_range : List α) (files : Option (List Path))
    (file_size_min : Nat) (yes_file no_file corrupt_file : Int) :
    Option (List Int) :=
  match files with
  | none => some (date_range.map (fun t => if t ∈ dates then yes_file else 0))
  | some fl =>
    if fl.length = dates.length then
      some (date_range.map (fun t =>
        if t ∈ undersizedDates fs dates fl file_size_min then corrupt_file
        else if t ∈ dates then yes_file else 0))
    else none

/-- Storing a byte string into a numpy `dtype='S256'` array slot keeps only
its first 256 bytes (numpy truncates silently on assignment). -/
def s256 (s : Path) : Path := s.take 256

/-- One iteration of `File_Aligner_NoSize`'s loop: at least one catalog match
→ record the requested date and the first matched file (no size check, no
stat at all); otherwise leave the zero-initialised slots (`b''`, int `0`). -/
def alignOneNoSize {α : Type} [DecidableEq α] (files : List Path)
    (dates : List α) (t : α) : Option (Path × PyObj α) :=
  if 1 ≤ countMatches dates t then
    match matchFirst dates files t with
    | none => none
    | some f => some (s256 f, PyObj.date t)
  else some ([], PyObj.int 0)

/-- `File_Aligner_NoSize` (system.py lines 478–508): returns the parallel
`(File_Loc, File_Date)` arrays. -/
def File_Aligner_NoSize {α : Type} [DecidableEq α] (files : List Path)
    (dates date_range : List α) : Option (List Path × List (PyObj α)) :=
  (optMap (alignOneNoSize files dates) date_range).map List.unzip

/-- One iteration of `File_Aligner`'s loop: exactly one catalog match → stat
the matched file (propagating `OSError`); above the threshold record the date
and file, otherwise write the sentinel `2` into both slots; with no (or more
than one) match leave the zero-initialised slots. -/
def alignOne {α : Type} [DecidableEq α] (fs : Path → Option Nat)
    (files : List Path) (dates : List α) (file_size_min : Nat) (t : α) :
    Option (Path × PyObj α) :=
  if countMatches dates t = 1 then
    match matchFirst dates files t with
    | none => none
    | some f =>
      match fs f with
      | none => none
      | some s =>
        if file_size_min < s then some (s256 f, PyObj.date t)
        else some (s256 ['2'], PyObj.int 2)
  else some ([], PyObj.int 0)

/-- `File_Aligner` (system.py lines 510–544): the size-enforcing variant. -/
def File_Aligner {α : Type} [DecidableEq α] (fs : Path → Option Nat)
    (files : List Path) (dates date_range : List α) (file_size_min : Nat) :
    Option (List Path × List (PyObj α)) :=
  (optMap (alignOne fs files dates file_size_min) date_range).map List.unzip

/-! ### Helper lemmas -/

theorem optMap_get? {β γ : Type} (f : β → Option γ) (l : List β) (out : List γ)
    (h : optMap f l = some out) (i : Nat) : out.get? i = (l.get? i).bind f := by
  induction l generalizing out i with
  | nil =>
    simp only [optMap] at h
    cases h
    simp
  | cons b l ih =>
    simp only [optMap] at h
    cases hf : f b with
    | none => rw [hf] at h; exact absurd h (by simp)
    | some c =>
      rw [hf] at h
      cases ho : optMap f l with
      | none => rw [ho] at h; exact absurd h (by simp)
      | some cs =>
        rw [ho] at h
        cases h
        cases i with
        | zero => simpa using hf.symm
        | succ i => simpa using ih cs ho i

theorem optMap_length {β γ : Type} (f : β → Option γ) (l : List β) (out : List γ)
    (h : optMap f l = some out) : out.length = l.length := by
  induction l generalizing out with
  | nil => simp only [optMap] at h; cases h; rfl
  | cons b l ih =>
    simp only [optMap] at h
    cases hf : f b with
    | none => rw [hf] at h; exact absurd h (by simp)
    | some c =>
      rw [hf] at h
      cases ho : optMap f l with
      | none => rw [ho] at h; exact absurd h (by simp)
      | some cs => rw [ho] at h; cases h; simpa using ih cs ho

theorem optMap_eq_map {β γ : Type} (f : β → Option γ) (g : β → γ) (l : List β)
    (h : ∀ b ∈ l, f b = some (g b)) : optMap f l = some (l.map g) := by
  induction l with
  | nil => rfl
  | cons b l ih =>
    simp only [optMap, h b (List.mem_cons_self b l),
      ih (fun x hx => h x (List.mem_cons_of_mem b hx)), List.map_cons]

theorem optMap_isSome {β γ : Type} (f : β → Option γ) (l : List β)
    (h : ∀ b ∈ l, f b ≠ none) : ∃ out, optMap f l = some out := by
  induction l with
  | nil => exact ⟨[], rfl⟩
  | cons b l ih =>
    obtain ⟨cs, hcs⟩ := ih fun x hx => h x (List.mem_cons_of_mem b hx)
    cases hf : f b with
    | none => exact absurd hf (h b (List.mem_cons_self b l))
    | some c => exact ⟨c :: cs, by simp [optMap, hf, hcs]⟩

theorem countMatches_eq_zero {α : Type} [DecidableEq α] {dates : List α} {t : α} :
    countMatches dates t = 0 ↔ t ∉ dates := by
  simp only [countMatches, List.length_eq_zero, List.filter_eq_nil_iff,
    decide_eq_true_eq]
  constructor
  · intro h ht
    exact h t ht rfl
  · intro h d hd hdt
    exact h (hdt ▸ hd)

theorem one_le_countMatches {α : Type} [DecidableEq α] {dates : List α} {t : α} :
    1 ≤ countMatches dates t ↔ t ∈ dates := by
  rw [Nat.one_le_iff_ne_zero, ne_eq, countMatches_eq_zero, Decidable.not_not]

theorem matchedFiles_length {α : Type} [DecidableEq α] :
    ∀ (dates : List α) (files : List Path), dates.length = files.length →
      ∀ t, (matchedFiles dates files t).length = countMatches dates t
  | [], [], _, _ => rfl
  | [], _ :: _, h, _ => absurd h (by simp)
  | _ :: _, [], h, _ => absurd h (by simp)
  | d :: dates, f :: files, h, t => by
    have ih := matchedFiles_length dates files (by simpa using h) t
    simp only [matchedFiles, countMatches, List.zip_cons_cons, List.filter_cons]
      at ih ⊢
    by_cases hd : d = t <;> simp [hd, ih, matchedFiles, countMatches]

theorem matchedFiles_subset {α : Type} [DecidableEq α] {dates : List α}
    {files : List Path} {t : α} {x : Path}
    (h : x ∈ matchedFiles dates files t) : x ∈ files := by
  simp only [matchedFiles, List.mem_map, List.mem_filter] at h
  obtain ⟨p, ⟨hp, _⟩, hpx⟩ := h
  exact hpx ▸ (List.of_mem_zip hp).2

theorem matchFirst_isSome {α : Type} [DecidableEq α] {dates : List α}
    {files : List Path} {t : α} (hlen : dates.length = files.length)
    (hc : 1 ≤ countMatches dates t) : ∃ f, matchFirst dates files t = some f := by
  have hl := matchedFiles_length dates files hlen t
  have hne : matchedFiles dates files t ≠ [] := by
    intro hnil
    rw [hnil] at hl
    simp at hl
    omega
  refine ⟨(matchedFiles dates files t).head hne, ?_⟩
  simp [matchFirst, maskSelect, hlen, List.head?_eq_head hne]

theorem matchFirst_mem {α : Type} [DecidableEq α] {dates : List α}
    {files : List Path} {t : α} {f : Path}
    (h : matchFirst dates files t = some f) : f ∈ files := by
  unfold matchFirst maskSelect at h
  by_cases hlen : dates.length = files.length
  · rw [if_pos hlen] at h
    simp only [Option.some_bind] at h
    exact matchedFiles_subset (List.mem_of_mem_head? h)
  · rw [if_neg hlen] at h
    exact absurd h (by simp)

theorem zip_pair_of_count_one {α : Type} [DecidableEq α] {dates : List α}
    {files : List Path} {t : α} {f : Path}
    (hlen : dates.length = files.length) (hc : countMatches dates t = 1)
    (hf : matchFirst dates files t = some f) :
    ∀ p ∈ dates.zip files, p.1 = t → p.2 = f := by
  intro p hp hpt
  have hl : (matchedFiles dates files t).length = 1 :=
    (matchedFiles_length dates files hlen t).trans hc
  have hzl : (((dates.zip files).filter (fun q => decide (q.1 = t)))).length = 1 := by
    simpa [matchedFiles] using hl
  obtain ⟨p₀, hp₀⟩ := List.length_eq_one.mp hzl
  have hmf : matchedFiles dates files t = [p₀.2] := by
    simp [matchedFiles, hp₀]
  have hff : f = p₀.2 := by
    simp only [matchFirst, maskSelect, if_pos hlen, Option.some_bind, hmf] at hf
    simpa using hf.symm
  have hpmem : p ∈ (dates.zip files).filter (fun q => decide (q.1 = t)) :=
    List.mem_filter.mpr ⟨hp, by simpa using hpt⟩
  rw [hp₀] at hpmem
  simp only [List.mem_singleton] at hpmem
  rw [hpmem, hff]

theorem mem_undersizedDates {α : Type} [DecidableEq α] {fs : Path → Option Nat}
    {dates : List α} {files : List Path} {m : Nat} {t' : α} :
    t' ∈ undersizedDates fs dates files m ↔
      ∃ p ∈ dates.zip files, p.1 = t' ∧ (fs p.2).getD 0 ≤ m := by
  simp only [undersizedDates, List.zip_map_right, List.mem_map, List.mem_filter,
    decide_eq_true_eq]
  constructor
  · rintro ⟨q, ⟨⟨p, hp, rfl⟩, hq2⟩, hq1⟩
    exact ⟨p, hp, hq1, hq2⟩
  · rintro ⟨p, hp, hp1, hp2⟩
    exact ⟨Prod.map id (fun f => (fs f).getD 0) p, ⟨⟨p, hp, rfl⟩, hp2⟩, hp1⟩

theorem undersizedDates_subset {α : Type} [DecidableEq α] {fs : Path → Option Nat}
    {dates : List α} {files : List Path} {m : Nat} {t' : α}
    (h : t' ∈ undersizedDates fs dates files m) : t' ∈ dates := by
  obtain ⟨p, hp, hp1, _⟩ := mem_undersizedDates.mp h
  exact hp1 ▸ (List.of_mem_zip hp).1

theorem file_checker_some_eq {α : Type} [DecidableEq α] (fs : Path → Option Nat)
    (dates date_range : List α) (fl : List Path) (m : Nat) (y n c : Int) :
    file_checker fs dates date_range (some fl) m y n c =
      optMap (checkOne fs dates fl m y n c) date_range := rfl

theorem mem_zip_of_get? {β γ : Type} {l₁ : List β} {l₂ : List γ} {j : Nat}
    {a : β} {b : γ} (h₁ : l₁.get? j = some a) (h₂ : l₂.get? j = some b) :
    (a, b) ∈ l₁.zip l₂ := by
  induction l₁ generalizing l₂ j with
  | nil => exact absurd h₁ (by simp)
  | cons x l ih =>
    cases l₂ with
    | nil => exact absurd h₂ (by simp)
    | cons y l' =>
      cases j with
      | zero =>
        simp only [List.get?] at h₁ h₂
        cases h₁
        cases h₂
        simp [List.zip_cons_cons]
      | succ j =>
        simp only [List.get?] at h₁ h₂
        exact List.mem_cons_of_mem _ (ih h₁ h₂)

theorem optMap_mem {β γ : Type} {f : β → Option γ} {l : List β} {out : List γ}
    (h : optMap f l = some out) {c : γ} (hc : c ∈ out) :
    ∃ b ∈ l, f b = some c := by
  obtain ⟨i, hi⟩ := List.mem_iff_get?.mp hc
  have hg := optMap_get? _ _ _ h i
  rw [hi] at hg
  cases hb : l.get? i with
  | none => rw [hb] at hg; exact absurd hg.symm (by simp)
  | some b =>
    rw [hb, Option.some_bind] at hg
    exact ⟨b, List.get?_mem hb, hg.symm⟩

theorem aligner_get? {β γ : Type} {g : β → Option (Path × γ)} {dr : List β}
    {locs : List Path} {ds : List γ}
    (h : (optMap g dr).map List.unzip = some (locs, ds)) (i : Nat) :
    locs.get? i = ((dr.get? i).bind g).map Prod.fst ∧
      ds.get? i = ((dr.get? i).bind g).map Prod.snd := by
  obtain ⟨pl, hpl, hunzip⟩ := Option.map_eq_some'.mp h
  have h1 : locs = pl.map Prod.fst := by
    rw [← List.unzip_fst (l := pl), hunzip]
  have h2 : ds = pl.map Prod.snd := by
    rw [← List.unzip_snd (l := pl), hunzip]
  subst h1 h2
  rw [List.get?_map, List.get?_map, optMap_get? _ _ _ hpl i]
  exact ⟨rfl, rfl⟩

theorem matchFirst_pair_mem {α : Type} [DecidableEq α] {dates : List α}
    {files : List Path} {t : α} {f : Path}
    (hlen : dates.length = files.length)
    (h : matchFirst dates files t = some f) : (t, f) ∈ dates.zip files := by
  simp only [matchFirst, maskSelect, if_pos hlen, Option.some_bind] at h
  have hf : f ∈ matchedFiles dates files t := List.mem_of_mem_head? h
  simp only [matchedFiles, List.mem_map, List.mem_filter, decide_eq_true_eq]
    at hf
  obtain ⟨p, ⟨hp, hp1⟩, hp2⟩ := hf
  obtain ⟨p1, p2⟩ := p
  simp only at hp1 hp2
  subst hp1 hp2
  exact hp

/-! ### Claim theorems -/

/-- C1: `file_checker` with files supplied classifies each requested
timestamp: no catalog entry → `no_file`; exactly one catalog entry whose file
exists with size `s` → `yes_file` iff `s > file_size_min`, else
`corrupt_file`. -/
theorem file_checker_classification {α : Type} [DecidableEq α]
    (fs : Path → Option Nat) (dates date_range : List α) (files : List Path)
    (m : Nat) (y n c : Int) (out : List Int)
    (hok : file_checker fs dates date_range (some files) m y n c = some out)
    (i : Nat) (t : α) (ht : date_range.get? i = some t) :
    (countMatches dates t = 0 → out.get? i = some n) ∧
    (∀ f s, countMatches dates t = 1 → matchFirst dates files t = some f →
      fs f = some s → out.get? i = some (if m < s then y else c)) := by
  have hg := optMap_get? _ _ _ hok i
  rw [ht, Option.some_bind] at hg
  constructor
  · intro h0
    rw [hg]
    simp [checkOne, h0]
  · intro f s h1 hf hs
    rw [hg]
    simp [checkOne, h1, hf, hs]

theorem file_checker_classification_witness :
    ([(1 : Int), 0].get? 1 = some 0) ∧
      ([(1 : Int), 0].get? 0 = some (if 0 < 10 then (1 : Int) else 2)) := by
  have hmiss := file_checker_classification (fun _ => some 10) [(0 : Nat)]
    [0, 1] [['a']] 0 1 0 2 [1, 0] (by rfl) 1 1 (by rfl)
  have hhit := file_checker_classification (fun _ => some 10) [(0 : Nat)]
    [0, 1] [['a']] 0 1 0 2 [1, 0] (by rfl) 0 0 (by rfl)
  exact ⟨hmiss.1 (by decide), hhit.2 ['a'] 10 (by decide) (by rfl) rfl⟩

/-- C2 counterexample: on a catalog whose single entry's path cannot be
statted, `file_checker` propagates the `OSError` (no result at all, the
remaining range is not processed), refuting the claim that
"checkAvailability never propagates a filesystem exception";
`file_checker2` on the same input catches it and reports `corrupt_file`. -/
theorem stat_error_propagation_cex :
    file_checker (fun _ => none) [(0 : Nat)] [0] (some [['a']]) 0 1 0 2 =
        none ∧
      file_checker2 (fun _ => none) [(0 : Nat)] [0] (some [['a']]) 0 1 0 2 =
        some [2] :=
  ⟨rfl, rfl⟩

/-- C2 amended: only `file_checker2` never propagates filesystem errors:
with parallel catalog arrays it always returns a result, and a catalog entry
whose stat raises is treated as size 0, so its timestamp is reported
`corrupt_file` while the rest of the range is still processed.
`file_checker` propagates the stat error (see the counterexample). -/
theorem file_checker2_never_propagates {α : Type} [DecidableEq α]
    (fs : Path → Option Nat) (dates date_range : List α) (files : List Path)
    (m : Nat) (y n c : Int) (hlen : dates.length = files.length)
    (i j : Nat) (t : α) (f : Path)
    (ht : date_range.get? i = some t) (hj : dates.get? j = some t)
    (hf : files.get? j = some f) (hdead : fs f = none) :
    ∃ out, file_checker2 fs dates date_range (some files) m y n c = some out ∧
      out.get? i = some c := by
  have hmem : (t, f) ∈ dates.zip files := mem_zip_of_get? hj hf
  have hu : t ∈ undersizedDates fs dates files m :=
    mem_undersizedDates.mpr ⟨(t, f), hmem, rfl, by simp [hdead]⟩
  refine ⟨date_range.map (fun t' =>
      if t' ∈ undersizedDates fs dates files m then c
      else if t' ∈ dates then y else 0), ?_, ?_⟩
  · simp only [file_checker2]
    rw [if_pos hlen.symm]
  · rw [List.get?_map, ht]
    simp [hu]

theorem file_checker2_never_propagates_witness :
    ∃ out, file_checker2 (fun _ => none) [(0 : Nat)] [0] (some [['a']]) 0 1 0 2 =
        some out ∧ out.get? 0 = some 2 :=
  file_checker2_never_propagates (fun _ => none) [(0 : Nat)] [0] [['a']] 0 1 0 2
    (by decide) 0 0 0 ['a'] (by rfl) (by rfl) (by rfl) rfl

/-- C7: whenever `file_checker` / `file_checker2` return a result, it has
exactly one availability code per requested timestamp: its length equals the
requested range's length. -/
theorem checker_output_length {α : Type} [DecidableEq α]
    (fs : Path → Option Nat) (dates date_range : List α)
    (files : Option (List Path)) (m : Nat) (y n c : Int) (out1 out2 : List Int)
    (h1 : file_checker fs dates date_range files m y n c = some out1)
    (h2 : file_checker2 fs dates date_range files m y n c = some out2) :
    out1.length = date_range.length ∧ out2.length = date_range.length := by
  constructor
  · cases files with
    | none =>
      simp only [file_checker, Option.some.injEq] at h1
      subst h1
      simp
    | some fl => exact optMap_length _ _ _ h1
  · cases files with
    | none =>
      simp only [file_checker2, Option.some.injEq] at h2
      subst h2
      simp
    | some fl =>
      simp only [file_checker2] at h2
      by_cases hlen : fl.length = dates.length
      · rw [if_pos hlen, Option.some.injEq] at h2
        subst h2
        simp
      · rw [if_neg hlen] at h2
        exact absurd h2 (by simp)

theorem checker_output_length_witness :
    ([(1 : Int), 0].length = [(0 : Nat), 1].length) ∧
      ([(1 : Int), 0].length = [(0 : Nat), 1].length) :=
  checker_output_length (fun _ => some 10) [(0 : Nat)] [0, 1] (some [['a']])
    0 1 0 2 [1, 0] [1, 0] (by rfl) (by rfl)

/-- C9: `file_checker2` never uses its `no_file` parameter: a requested
timestamp with no catalog entry keeps the zero-filled array's 0, and the
whole result is unchanged under any other `no_file` value. -/
theorem file_checker2_no_file_unused {α : Type} [DecidableEq α]
    (fs : Path → Option Nat) (dates date_range : List α)
    (files : Option (List Path)) (m : Nat) (y n n' c : Int) (out : List Int)
    (h : file_checker2 fs dates date_range files m y n c = some out)
    (i : Nat) (t : α) (ht : date_range.get? i = some t) (hmiss : t ∉ dates) :
    out.get? i = some 0 ∧
      file_checker2 fs dates date_range files m y n c =
        file_checker2 fs dates date_range files m y n' c := by
  refine ⟨?_, rfl⟩
  cases files with
  | none =>
    simp only [file_checker2, Option.some.injEq] at h
    subst h
    rw [List.get?_map, ht]
    simp [hmiss]
  | some fl =>
    simp only [file_checker2] at h
    by_cases hlen : fl.length = dates.length
    · rw [if_pos hlen, Option.some.injEq] at h
      subst h
      rw [List.get?_map, ht]
      have hnu : t ∉ undersizedDates fs dates fl m := fun hu =>
        hmiss (undersizedDates_subset hu)
      simp [hmiss, hnu]
    · rw [if_neg hlen] at h
      exact absurd h (by simp)

theorem file_checker2_no_file_unused_witness :
    ([(1 : Int), 0].get? 1 = some 0) ∧
      file_checker2 (fun _ => some 10) [(0 : Nat)] [0, 1] (some [['a']]) 0 1 7 2 =
        file_checker2 (fun _ => some 10) [(0 : Nat)] [0, 1] (some [['a']]) 0 1 9 2 :=
  file_checker2_no_file_unused (fun _ => some 10) [(0 : Nat)] [0, 1]
    (some [['a']]) 0 1 7 9 2 [1, 0] (by rfl) 1 1 (by rfl) (by decide)

/-- C3 counterexample: with two catalog entries for the requested timestamp
(first entry's file exists with positive size), the result is not computed
from the first matching entry: `file_checker` reports `no_file` and
`File_Aligner` leaves the zero-initialised slots; only `File_Aligner_NoSize`
uses the first match. -/
theorem duplicate_first_match_cex :
    file_checker (fun _ => some 10) [(0 : Nat), 0] [0] (some [['a'], ['b']])
        0 1 0 2 = some [0] ∧
      File_Aligner (fun _ => some 10) [['a'], ['b']] [(0 : Nat), 0] [0] 0 =
        some ([[]], [PyObj.int 0]) ∧
      File_Aligner_NoSize [['a'], ['b']] [(0 : Nat), 0] [0] =
        some ([['a']], [PyObj.date 0]) :=
  ⟨rfl, rfl, rfl⟩

/-- C3 amended: on two or more catalog entries sharing a requested timestamp
the behavior is deterministic but function-specific: `file_checker` reports
`no_file` (its exactly-one-match guard fails), `File_Aligner` leaves both
output slots at their zero-value defaults, and only `File_Aligner_NoSize`
computes its result from the first matching entry in catalog order. -/
theorem duplicate_timestamp_behavior {α : Type} [DecidableEq α]
    (fs : Path → Option Nat) (dates date_range : List α) (files : List Path)
    (m : Nat) (y n c : Int) (i : Nat) (t : α)
    (ht : date_range.get? i = some t) (hdup : 2 ≤ countMatches dates t) :
    (∀ out, file_checker fs dates date_range (some files) m y n c = some out →
        out.get? i = some n) ∧
    (∀ locs ds, File_Aligner fs files dates date_range m = some (locs, ds) →
        locs.get? i = some [] ∧ ds.get? i = some (PyObj.int 0)) ∧
    (∀ locs ds f, File_Aligner_NoSize files dates date_range = some (locs, ds) →
        matchFirst dates files t = some f →
        locs.get? i = some (s256 f) ∧ ds.get? i = some (PyObj.date t)) := by
  have hne1 : countMatches dates t ≠ 1 := by omega
  have hge1 : 1 ≤ countMatches dates t := by omega
  refine ⟨?_, ?_, ?_⟩
  · intro out hok
    have hg := optMap_get? _ _ _ hok i
    rw [ht, Option.some_bind] at hg
    rw [hg]
    simp [checkOne, hne1]
  · intro locs ds h
    have hg := aligner_get? h i
    rw [ht] at hg
    simp only [Option.some_bind] at hg
    rw [hg.1, hg.2]
    simp [alignOne, hne1]
  · intro locs ds f h hmf
    have hg := aligner_get? h i
    rw [ht] at hg
    simp only [Option.some_bind] at hg
    rw [hg.1, hg.2]
    simp [alignOneNoSize, hge1, hmf]

theorem duplicate_timestamp_behavior_witness :
    ([(0 : Int)].get? 0 = some 0) ∧
      (([([] : Path)].get? 0 = some [] ∧
          [PyObj.int (α := Nat) 0].get? 0 = some (PyObj.int 0)) ∧
        ([(['a'] : Path)].get? 0 = some (s256 ['a']) ∧
          [PyObj.date (0 : Nat)].get? 0 = some (PyObj.date 0))) := by
  have h := duplicate_timestamp_behavior (fun _ => some 10) [(0 : Nat), 0] [0]
    [['a'], ['b']] 0 1 0 2 0 0 (by rfl) (by decide)
  exact ⟨h.1 [0] rfl, h.2.1 [[]] [PyObj.int 0] rfl,
    h.2.2 [['a']] [PyObj.date 0] ['a'] rfl rfl⟩

/-- C4 counterexample: the two checkers are not element-wise equal on every
input: on a catalog with a duplicated timestamp (default codes) they return
different outputs (`no_file` vs `yes_file`). -/
theorem checker_equivalence_cex :
    file_checker (fun _ => some 10) [(0 : Nat), 0] [0] (some [['a'], ['b']])
        0 1 0 2 ≠
      file_checker2 (fun _ => some 10) [(0 : Nat), 0] [0] (some [['a'], ['b']])
        0 1 0 2 := by
  decide

/-- C4 amended: the two checkers agree (default `no_file = 0`) on every
input whose parallel catalog arrays line up, whose requested timestamps each
have at most one matching catalog entry, and whose catalog files can all be
statted; with duplicated timestamps or stat errors they differ (see the
counterexample). -/
theorem checker_equivalence_restricted {α : Type} [DecidableEq α]
    (fs : Path → Option Nat) (dates date_range : List α) (files : List Path)
    (m : Nat) (y c : Int) (hlen : dates.length = files.length)
    (hfs : ∀ f ∈ files, fs f ≠ none)
    (huniq : ∀ t ∈ date_range, countMatches dates t ≤ 1) :
    file_checker fs dates date_range (some files) m y 0 c =
      file_checker2 fs dates date_range (some files) m y 0 c := by
  have key : ∀ t ∈ date_range, checkOne fs dates files m y 0 c t =
      some (if t ∈ undersizedDates fs dates files m then c
        else if t ∈ dates then y else 0) := by
    intro t htr
    rcases Nat.lt_or_ge (countMatches dates t) 1 with hc0 | hc1
    · have h0 : countMatches dates t = 0 := by omega
      have hnd : t ∉ dates := countMatches_eq_zero.mp h0
      have hnu : t ∉ undersizedDates fs dates files m := fun hu =>
        hnd (undersizedDates_subset hu)
      simp [checkOne, h0, hnd, hnu]
    · have h1 : countMatches dates t = 1 := le_antisymm (huniq t htr) hc1
      have hd : t ∈ dates := one_le_countMatches.mp hc1
      obtain ⟨f, hmf⟩ := matchFirst_isSome hlen hc1
      obtain ⟨s, hs⟩ := Option.ne_none_iff_exists'.mp
        (hfs f (matchFirst_mem hmf))
      have hpair : (t, f) ∈ dates.zip files := matchFirst_pair_mem hlen hmf
      have hiff : t ∈ undersizedDates fs dates files m ↔ s ≤ m := by
        constructor
        · intro hu
          obtain ⟨p, hp, hp1, hp2⟩ := mem_undersizedDates.mp hu
          have hpf : p.2 = f := zip_pair_of_count_one hlen h1 hmf p hp hp1
          rw [hpf, hs] at hp2
          simpa using hp2
        · intro hsm
          exact mem_undersizedDates.mpr ⟨(t, f), hpair, rfl, by simp [hs, hsm]⟩
      by_cases hms : m < s
      · have hnu : t ∉ undersizedDates fs dates files m := fun hu => by
          have := hiff.mp hu
          omega
        simp [checkOne, h1, hmf, hs, hms, hnu, hd]
      · have hu : t ∈ undersizedDates fs dates files m := hiff.mpr (by omega)
        simp [checkOne, h1, hmf, hs, hms, hu]
  rw [file_checker_some_eq, optMap_eq_map _ _ _ key]
  simp only [file_checker2]
  rw [if_pos hlen.symm]

theorem checker_equivalence_restricted_witness :
    file_checker (fun _ => some 10) [(0 : Nat)] [0, 1] (some [['a']]) 0 1 0 2 =
      file_checker2 (fun _ => some 10) [(0 : Nat)] [0, 1] (some [['a']]) 0 1 0 2 :=
  checker_equivalence_restricted (fun _ => some 10) [(0 : Nat)] [0, 1] [['a']]
    0 1 2 (by decide) (by decide) (by decide)

/-- C5 counterexample: with mismatched parallel catalog arrays (1 date, 2
files) and a requested timestamp matching nothing, `file_checker` does not
fail at all: it silently returns a normal all-`no_file` output, refuting
"fails fast with a descriptive error before any filesystem access". -/
theorem length_validation_cex :
    ([(0 : Nat)] : List Nat).length ≠ ([['a'], ['b']] : List Path).length ∧
      file_checker (fun _ => none) [(0 : Nat)] [1] (some [['a'], ['b']])
        0 1 0 2 = some [0] :=
  ⟨by decide, rfl⟩

/-- C5 amended: neither checker validates the parallel-array lengths up
front. On mismatched arrays, `file_checker` silently returns a normal
all-`no_file` output whenever no requested timestamp has exactly one catalog
match (it can only raise the mask `IndexError` mid-loop at a matched
timestamp), and `file_checker2` fails with the `dates[mask_filesize]`
indexing error — after statting every file — not a descriptive validation
error. -/
theorem no_length_validation {α : Type} [DecidableEq α]
    (fs : Path → Option Nat) (dates date_range : List α) (files : List Path)
    (m : Nat) (y n c : Int)
    (h1 : ∀ t ∈ date_range, countMatches dates t ≠ 1)
    (h2 : dates.length ≠ files.length) :
    file_checker fs dates date_range (some files) m y n c =
        some (date_range.map (fun _ => n)) ∧
      file_checker2 fs dates date_range (some files) m y n c = none := by
  constructor
  · rw [file_checker_some_eq]
    exact optMap_eq_map _ _ _ fun t ht => by simp [checkOne, h1 t ht]
  · simp only [file_checker2]
    have hne : ¬ files.length = dates.length := fun hl => h2 hl.symm
    rw [if_neg hne]

theorem no_length_validation_witness :
    (file_checker (fun _ => none) [(0 : Nat)] [1] (some [['a'], ['b']])
        0 1 0 2 = some ([(1 : Nat)].map (fun _ => (0 : Int)))) ∧
      file_checker2 (fun _ => none) [(0 : Nat)] [1] (some [['a'], ['b']])
        0 1 0 2 = none :=
  no_length_validation (fun _ => none) [(0 : Nat)] [1] [['a'], ['b']] 0 1 0 2
    (by decide) (by decide)

/-- C6 counterexample: the `files = None` fast path of `file_checker`
ignores the caller-supplied codes: with codes `(5, 3, 4)` it still emits the
hard-coded 1, none of the three supplied values. -/
theorem fast_path_codes_cex :
    file_checker (fun _ => none) [(0 : Nat)] [0] none 0 5 3 4 = some [1] ∧
      ((1 : Int) ≠ 5 ∧ (1 : Int) ≠ 3 ∧ (1 : Int) ≠ 4) :=
  ⟨rfl, by decide⟩

/-- C6 amended: with files supplied, every `file_checker` output code is one
of the three caller-supplied values (available/missing/corrupt), and every
`file_checker2` output code is `yes_file`, the hard-wired 0 (in place of
`no_file`), or `corrupt_file`; the `files = None` fast path of `file_checker`
instead emits hard-coded 1/0 (see the counterexample). -/
theorem availability_code_range {α : Type} [DecidableEq α]
    (fs : Path → Option Nat) (dates date_range : List α) (files : List Path)
    (m : Nat) (y n c : Int) (out1 out2 : List Int)
    (h1 : file_checker fs dates date_range (some files) m y n c = some out1)
    (h2 : file_checker2 fs dates date_range (some files) m y n c = some out2) :
    (∀ x ∈ out1, x = y ∨ x = n ∨ x = c) ∧
      (∀ x ∈ out2, x = y ∨ x = 0 ∨ x = c) := by
  constructor
  · intro x hx
    obtain ⟨b, _, hb⟩ := optMap_mem h1 hx
    by_cases hc1 : countMatches dates b = 1
    · cases hmf : matchFirst dates files b with
      | none => simp [checkOne, hc1, hmf] at hb
      | some f =>
        cases hfs : fs f with
        | none => simp [checkOne, hc1, hmf, hfs] at hb
        | some s =>
          simp only [checkOne, hc1, hmf, hfs, if_true, Option.some.injEq]
            at hb
          by_cases hms : m < s
          · rw [if_pos hms] at hb
            exact Or.inl hb.symm
          · rw [if_neg hms] at hb
            exact Or.inr (Or.inr hb.symm)
    · simp only [checkOne, hc1, if_false, Option.some.injEq] at hb
      exact Or.inr (Or.inl hb.symm)
  · intro x hx
    simp only [file_checker2] at h2
    by_cases hlen : files.length = dates.length
    · rw [if_pos hlen, Option.some.injEq] at h2
      subst h2
      obtain ⟨t, _, hb⟩ := List.mem_map.mp hx
      by_cases hu : t ∈ undersizedDates fs dates files m
      · rw [if_pos hu] at hb
        exact Or.inr (Or.inr hb.symm)
      · rw [if_neg hu] at hb
        by_cases hd : t ∈ dates
        · rw [if_pos hd] at hb
          exact Or.inl hb.symm
        · rw [if_neg hd] at hb
          exact Or.inr (Or.inl hb.symm)
    · rw [if_neg hlen] at h2
      exact absurd h2 (by simp)

theorem availability_code_range_witness :
    (∀ x ∈ [(1 : Int), 0], x = 1 ∨ x = 0 ∨ x = 2) ∧
      (∀ x ∈ [(1 : Int), 0], x = 1 ∨ x = 0 ∨ x = 2) :=
  availability_code_range (fun _ => some 10) [(0 : Nat)] [0, 1] [['a']] 0 1 0 2
    [1, 0] [1, 0] (by rfl) (by rfl)

/-- C8: in `File_Aligner`, a requested timestamp with no catalog match leaves
both slots at their zero-value defaults (`b''` and int 0); one whose single
match stats undersized (size not greater than the threshold) gets the fixed
sentinel `2` in both the path and the timestamp slot; `File_Aligner_NoSize`
(which never consults the filesystem) accepts any catalog match. -/
theorem aligner_slot_behavior {α : Type} [DecidableEq α]
    (fs : Path → Option Nat) (files : List Path) (dates date_range : List α)
    (m : Nat) (locs : List Path) (ds : List (PyObj α)) (locs2 : List Path)
    (ds2 : List (PyObj α)) (i : Nat) (t : α)
    (ht : date_range.get? i = some t)
    (h : File_Aligner fs files dates date_range m = some (locs, ds))
    (h2 : File_Aligner_NoSize files dates date_range = some (locs2, ds2)) :
    (countMatches dates t = 0 →
        locs.get? i = some [] ∧ ds.get? i = some (PyObj.int 0)) ∧
    (∀ f s, countMatches dates t = 1 → matchFirst dates files t = some f →
        fs f = some s → s ≤ m →
        locs.get? i = some (s256 ['2']) ∧ ds.get? i = some (PyObj.int 2)) ∧
    (∀ f, 1 ≤ countMatches dates t → matchFirst dates files t = some f →
        locs2.get? i = some (s256 f) ∧ ds2.get? i = some (PyObj.date t)) := by
  have hg := aligner_get? h i
  have hg2 := aligner_get? h2 i
  rw [ht] at hg hg2
  simp only [Option.some_bind] at hg hg2
  refine ⟨?_, ?_, ?_⟩
  · intro h0
    have hne : countMatches dates t ≠ 1 := by omega
    rw [hg.1, hg.2]
    simp [alignOne, hne]
  · intro f s h1 hmf hfs hsm
    have hms : ¬ m < s := by omega
    rw [hg.1, hg.2]
    simp [alignOne, h1, hmf, hfs, hms]
  · intro f h1 hmf
    rw [hg2.1, hg2.2]
    simp [alignOneNoSize, h1, hmf]

theorem aligner_slot_behavior_witness :
    (([(['2'] : Path), []].get? 0 = some (s256 ['2'])) ∧
        ([PyObj.int (α := Nat) 2, PyObj.int 0].get? 0 = some (PyObj.int 2))) ∧
      (([(['a'] : Path), []].get? 0 = some (s256 ['a'])) ∧
        ([PyObj.date (0 : Nat), PyObj.int 0].get? 0 = some (PyObj.date 0))) ∧
      (([(['2'] : Path), []].get? 1 = some []) ∧
        ([PyObj.int (α := Nat) 2, PyObj.int 0].get? 1 = some (PyObj.int 0))) := by
  have h0 := aligner_slot_behavior (fun _ => some 0) [['a']] [(0 : Nat)] [0, 1]
    0 [['2'], []] [PyObj.int 2, PyObj.int 0] [['a'], []]
    [PyObj.date 0, PyObj.int 0] 0 0 (by rfl) (by rfl) (by rfl)
  have h1 := aligner_slot_behavior (fun _ => some 0) [['a']] [(0 : Nat)] [0, 1]
    0 [['2'], []] [PyObj.int 2, PyObj.int 0] [['a'], []]
    [PyObj.date 0, PyObj.int 0] 1 1 (by rfl) (by rfl) (by rfl)
  exact ⟨h0.2.1 ['a'] 0 (by decide) (by rfl) rfl (by decide),
    h0.2.2 ['a'] (by decide) (by rfl), h1.1 (by decide)⟩

/-- C10: both aligners store matched paths through the fixed 256-byte
`'S256'` dtype: `File_Aligner_NoSize` stores exactly the first 256 bytes of
the matched path, `File_Aligner` likewise stores exactly the first 256 bytes
of the matched path whenever the match passes the size check (so paths
longer than 256 bytes are silently truncated by both), and every path slot
in `File_Aligner`'s output holds at most 256 bytes. -/
theorem s256_path_truncation {α : Type} [DecidableEq α]
    (fs : Path → Option Nat) (files : List Path) (dates date_range : List α)
    (m : Nat) (i : Nat) (t : α) (f : Path)
    (ht : date_range.get? i = some t)
    (hmf : matchFirst dates files t = some f) :
    (∀ locs2 ds2, 1 ≤ countMatches dates t →
        File_Aligner_NoSize files dates date_range = some (locs2, ds2) →
        locs2.get? i = some (f.take 256)) ∧
    (∀ locs ds s, countMatches dates t = 1 → fs f = some s → m < s →
        File_Aligner fs files dates date_range m = some (locs, ds) →
        locs.get? i = some (f.take 256)) ∧
    (∀ locs ds, File_Aligner fs files dates date_range m = some (locs, ds) →
        ∀ l ∈ locs, l.length ≤ 256) := by
  refine ⟨?_, ?_, ?_⟩
  · intro locs2 ds2 h1 h2
    have hg := (aligner_get? h2 i).1
    rw [ht, Option.some_bind] at hg
    rw [hg]
    simp [alignOneNoSize, h1, hmf, s256]
  · intro locs ds s hc1 hfs hms h
    have hg := (aligner_get? h i).1
    rw [ht, Option.some_bind] at hg
    rw [hg]
    simp [alignOne, hc1, hmf, hfs, hms, s256]
  · intro locs ds h l hl
    obtain ⟨pl, hpl, hunzip⟩ := Option.map_eq_some'.mp h
    have hlocs : locs = pl.map Prod.fst := by
      rw [← List.unzip_fst (l := pl), hunzip]
    rw [hlocs] at hl
    obtain ⟨p, hp, hpl1⟩ := List.mem_map.mp hl
    obtain ⟨b, _, hgb⟩ := optMap_mem hpl hp
    by_cases hc1 : countMatches dates b = 1
    · cases hmf' : matchFirst dates files b with
      | none => simp [alignOne, hc1, hmf'] at hgb
      | some f' =>
        cases hfs' : fs f' with
        | none => simp [alignOne, hc1, hmf', hfs'] at hgb
        | some s =>
          simp only [alignOne, hc1, hmf', hfs', if_true, Option.some.injEq]
            at hgb
          by_cases hms : m < s
          · rw [if_pos hms] at hgb
            rw [← hpl1, ← Option.some.inj hgb]
            simp only [s256, List.length_take]
            omega
          · rw [if_neg hms] at hgb
            rw [← hpl1, ← Option.some.inj hgb]
            simp [s256]
    · simp only [alignOne, hc1, if_false, Option.some.injEq] at hgb
      rw [← hpl1, ← hgb]
      simp

theorem s256_path_truncation_witness :
    ([(['a'] : Path), []].get? 0 = some ((['a'] : Path).take 256)) ∧
      ([(['a'] : Path), []].get? 0 = some ((['a'] : Path).take 256)) ∧
      (∀ l ∈ [(['a'] : Path), []], l.length ≤ 256) := by
  have h := s256_path_truncation (fun _ => some 10) [['a']] [(0 : Nat)] [0, 1]
    0 0 0 ['a'] (by rfl) (by rfl)
  exact ⟨h.1 [['a'], []] [PyObj.date 0, PyObj.int 0] (by decide) (by rfl),
    h.2.1 [['a'], []] [PyObj.date 0, PyObj.int 0] 10 (by decide) rfl
      (by decide) (by rfl),
    h.2.2 [['a'], []] [PyObj.date 0, PyObj.int 0] (by rfl)⟩

end GillyUtilities
